import Mathlib

/-!
Verification development for the clip-planning core of `maindl.js`
(repository `YoutubeTo1MinClips`).

Shallow-embedding conventions, used throughout:

* JavaScript numbers (IEEE doubles) are modelled as exact rationals `ℚ`.
  `Number.prototype.toFixed(d)` followed by `parseFloat` (which rounds to
  `d` decimals, ties toward `+∞`) is modelled by exact rational rounding
  `roundTo`; `Math.floor` by `Rat.floor`; `Math.round x` by
  `Rat.floor (x + 1/2)`; `Math.ceil x` by `-Rat.floor (-x)`.  `Rat.floor`
  is used instead of `⌊⌋` so that every definition stays
  kernel-computable; bridge lemmas relate the two.
* `Math.random()` is modelled by an explicit stream `rng : ℕ → ℚ` of
  values (contract: in `[0,1)`) together with a cursor that each draw
  advances, mirroring the call order of the source.
* The ECMAScript stable `Array.prototype.sort(cmp)` is modelled by
  `List.insertionSort`, which is extensionally equal to every stable sort
  for a total-preorder comparator.
* `execSync` calls to the external transcoder are modelled by an oracle
  `ok : ℕ → Bool` giving the success of the i-th per-window invocation;
  file-existence checks by a boolean `filesOk`; the `Duration:` parse of
  the ffmpeg banner by an `Option ℚ`.
* JavaScript number-to-string conversion inside the ffmpeg filter strings
  is abstracted as a parameter `fmt : ℚ → String` (the claims proved about
  those strings hold for every formatting function).
-/

namespace Maindl

/-! ### Numeric helpers (maindl.js lines 21–49) -/

/-- Exact model of `parseFloat(value.toFixed(d))`: round to `d` decimal
places, ties toward `+∞` (the ECMAScript `toFixed` tie rule picks the
larger candidate). -/
def roundTo (d : ℕ) (x : ℚ) : ℚ :=
  ((Rat.floor (x * 10 ^ d + 1 / 2) : ℤ) : ℚ) / 10 ^ d

/-- `randomInRange(min, max)` from maindl.js lines 41–44 with the
`Math.random()` draw `r` made explicit:
`parseFloat((min + r * (max - min)).toFixed(4))`. -/
def randomInRange (lo hi r : ℚ) : ℚ :=
  roundTo 4 (lo + r * (hi - lo))

/-- `randomChoice(arr)` from maindl.js lines 47–49:
`arr[Math.floor(r * arr.length)]`.  The extra default `dflt` is an
embedding artifact for the (never reached when `0 ≤ r < 1`) out-of-range
index. -/
def randomChoice (l : List String) (dflt : String) (r : ℚ) : String :=
  l.getD (Rat.floor (r * (l.length : ℚ))).toNat dflt

/-- `toSeconds` from maindl.js lines 21–32 (parse of `hh:mm:ss` /
`mm:ss` / `ss` range bounds), over already-split numeric parts. -/
def toSeconds (parts : List ℚ) : ℚ :=
  match parts with
  | [h, m, s] => h * 3600 + m * 60 + s
  | [m, s] => m * 60 + s
  | [s] => s
  | _ => 0

/-! ### Effect parameter generator (maindl.js lines 55–126) -/

/-- The `logo` sub-record of an effect profile. -/
structure LogoProfile where
  enabled : Bool
  file : String
  position : String
  scale : ℚ
  opacity : ℚ
  margin : ℤ
deriving DecidableEq

/-- The record returned by `generateUniqueEffects` (maindl.js lines
55–126), field for field. -/
structure EffectProfile where
  saturation : ℚ
  contrast : ℚ
  gamma : ℚ
  brightness : ℚ
  hue : ℚ
  colorTempR : ℚ
  colorTempG : ℚ
  colorTempB : ℚ
  rotationDeg : ℚ
  zoom : ℚ
  panX : ℚ
  panY : ℚ
  grain : ℚ
  blur : ℚ
  rgbaShiftH : ℚ
  rgbaShiftV : ℚ
  vignetteAngle : ℚ
  vignetteX0 : ℚ
  vignetteY0 : ℚ
  lensK1 : ℚ
  lensK2 : ℚ
  pitchShift : ℚ
  bassGain : ℚ
  trebleGain : ℚ
  speed : ℚ
  mirror : Bool
  logo : LogoProfile
  crf : ℤ
  preset : String
deriving DecidableEq

/-- `generateUniqueEffects()` (maindl.js lines 55–126).  The 29
`Math.random()` draws are taken from the stream `rng` starting at cursor
`k`, in the evaluation order of the source's object literal; the updated
cursor is returned alongside the profile. -/
def generateUniqueEffects (rng : ℕ → ℚ) (k : ℕ) : EffectProfile × ℕ :=
  ({ saturation := randomInRange 1.01 1.06 (rng k)
   , contrast := randomInRange 1.00 1.04 (rng (k + 1))
   , gamma := randomInRange 0.98 1.04 (rng (k + 2))
   , brightness := randomInRange (-0.02) 0.03 (rng (k + 3))
   , hue := randomInRange (-5) 5 (rng (k + 4))
   , colorTempR := randomInRange 0.97 1.03 (rng (k + 5))
   , colorTempG := randomInRange 0.98 1.02 (rng (k + 6))
   , colorTempB := randomInRange 0.96 1.04 (rng (k + 7))
   , rotationDeg := randomInRange 0.1 0.5 (rng (k + 8))
   , zoom := randomInRange 1.01 1.04 (rng (k + 9))
   , panX := randomInRange 2 12 (rng (k + 10))
   , panY := randomInRange 1 8 (rng (k + 11))
   , grain := randomInRange 2 6 (rng (k + 12))
   , blur := randomInRange 0.2 0.6 (rng (k + 13))
   , rgbaShiftH := randomInRange (-2) 2 (rng (k + 14))
   , rgbaShiftV := randomInRange (-1) 1 (rng (k + 15))
   , vignetteAngle := randomInRange 1.3 1.5 (rng (k + 16))
   , vignetteX0 := randomInRange 0.48 0.52 (rng (k + 17))
   , vignetteY0 := randomInRange 0.48 0.52 (rng (k + 18))
   , lensK1 := randomInRange (-0.02) 0.02 (rng (k + 19))
   , lensK2 := randomInRange (-0.01) 0.01 (rng (k + 20))
   , pitchShift := randomInRange 0.98 1.03 (rng (k + 21))
   , bassGain := randomInRange 0.5 2.5 (rng (k + 22))
   , trebleGain := randomInRange (-1.5) 0.5 (rng (k + 23))
   , speed := 1.0
   , mirror := true
   , logo :=
     { enabled := true
     , file := "logo.jpg"
     , position := "bd"
     , scale := randomInRange 0.10 0.14 (rng (k + 24))
     , opacity := randomInRange 0.85 1.0 (rng (k + 25))
     , margin := Rat.floor (randomInRange 8 15 (rng (k + 26))) }
   , crf := Rat.floor (randomInRange 21 25 (rng (k + 27)))
   , preset := randomChoice ["fast", "medium"] "fast" (rng (k + 28)) }, k + 29)

/-- The documented closed range of every numeric field of an
`EffectProfile` (the `[min,max]` bounds of the `randomInRange` calls in
maindl.js lines 55–126; for the three colour-balance channels the
claim's common `±4%` bound `[0.96, 1.04]`, which contains each channel's
own sampling range), the enumerated sets for `crf`, `logo.margin` and
`preset`, and the policy-fixed `speed = 1.0`. -/
def EffectInRanges (p : EffectProfile) : Prop :=
  (1.01 ≤ p.saturation ∧ p.saturation ≤ 1.06) ∧
  (1.00 ≤ p.contrast ∧ p.contrast ≤ 1.04) ∧
  (0.98 ≤ p.gamma ∧ p.gamma ≤ 1.04) ∧
  (-0.02 ≤ p.brightness ∧ p.brightness ≤ 0.03) ∧
  (-5 ≤ p.hue ∧ p.hue ≤ 5) ∧
  (0.96 ≤ p.colorTempR ∧ p.colorTempR ≤ 1.04) ∧
  (0.96 ≤ p.colorTempG ∧ p.colorTempG ≤ 1.04) ∧
  (0.96 ≤ p.colorTempB ∧ p.colorTempB ≤ 1.04) ∧
  (0.1 ≤ p.rotationDeg ∧ p.rotationDeg ≤ 0.5) ∧
  (1.01 ≤ p.zoom ∧ p.zoom ≤ 1.04) ∧
  (2 ≤ p.panX ∧ p.panX ≤ 12) ∧
  (1 ≤ p.panY ∧ p.panY ≤ 8) ∧
  (2 ≤ p.grain ∧ p.grain ≤ 6) ∧
  (0.2 ≤ p.blur ∧ p.blur ≤ 0.6) ∧
  (-2 ≤ p.rgbaShiftH ∧ p.rgbaShiftH ≤ 2) ∧
  (-1 ≤ p.rgbaShiftV ∧ p.rgbaShiftV ≤ 1) ∧
  (1.3 ≤ p.vignetteAngle ∧ p.vignetteAngle ≤ 1.5) ∧
  (0.48 ≤ p.vignetteX0 ∧ p.vignetteX0 ≤ 0.52) ∧
  (0.48 ≤ p.vignetteY0 ∧ p.vignetteY0 ≤ 0.52) ∧
  (-0.02 ≤ p.lensK1 ∧ p.lensK1 ≤ 0.02) ∧
  (-0.01 ≤ p.lensK2 ∧ p.lensK2 ≤ 0.01) ∧
  (0.98 ≤ p.pitchShift ∧ p.pitchShift ≤ 1.03) ∧
  (0.5 ≤ p.bassGain ∧ p.bassGain ≤ 2.5) ∧
  (-1.5 ≤ p.trebleGain ∧ p.trebleGain ≤ 0.5) ∧
  (0.10 ≤ p.logo.scale ∧ p.logo.scale ≤ 0.14) ∧
  (0.85 ≤ p.logo.opacity ∧ p.logo.opacity ≤ 1) ∧
  (8 ≤ p.logo.margin ∧ p.logo.margin ≤ 15) ∧
  (21 ≤ p.crf ∧ p.crf ≤ 25) ∧
  (p.preset = "fast" ∨ p.preset = "medium") ∧
  p.speed = 1

/-! ### Highlight scorer (maindl.js lines 341–489) -/

/-- A time window of the plan; `[start, stop)` in seconds (the source
field `end` is a reserved word in Lean, hence `stop`). -/
structure TRange where
  start : ℚ
  stop : ℚ
deriving DecidableEq

/-- A candidate window produced by the sliding evaluation
(`windowScores` entries in maindl.js lines 451–464). -/
structure ScoredWindow where
  start : ℕ
  stop : ℚ
  score : ℚ
deriving DecidableEq

/-- A selected highlight (`chosen` entries in maindl.js lines 469–488). -/
structure Moment where
  start : ℕ
  stop : ℚ
  score : ℚ
  reason : String
deriving DecidableEq

/-- The timestamp-proximity signal (maindl.js lines 411–417): cell `i`
of the `tsPresence` array accumulates `+1` for every parsed timestamp
`sec` with `max(0, sec-5) ≤ i ≤ min(L-1, sec+5)`; at the indices
`0 ≤ i ≤ L-1` actually read this equals the count below. -/
def tsPresence (timestampSeconds : List ℕ) (i : ℕ) : ℕ :=
  (timestampSeconds.filter fun sec => decide (sec ≤ i + 5 ∧ i ≤ sec + 5)).length

/-- The scene-cut-density signal (maindl.js lines 435–442): each cut
instant is rounded to the nearest second (`Math.round`, ties up) and
increments a radius-2 window. -/
def cutDensity (sceneCuts : List ℚ) (i : ℕ) : ℕ :=
  (sceneCuts.filter fun c =>
    decide (Rat.floor (c + 1 / 2) - 2 ≤ (i : ℤ) ∧ (i : ℤ) ≤ Rat.floor (c + 1 / 2) + 2)).length

/-- Combined per-second score (maindl.js lines 445–448):
`scores[i] = tsPresence[i] * 3 + cutDensity[i] * 1`. -/
def combinedScore (timestampSeconds : List ℕ) (sceneCuts : List ℚ) (i : ℕ) : ℚ :=
  (tsPresence timestampSeconds i : ℚ) * 3 + (cutDensity sceneCuts i : ℚ) * 1

/-- `Math.ceil`, modelled through the exact identity
`Math.ceil x = -Math.floor (-x)` to stay on the computable `Rat.floor`. -/
def jsCeil (q : ℚ) : ℤ :=
  -Rat.floor (-q)

/-- Length of the per-second signal arrays: `Math.ceil(duration) + 1`
(maindl.js lines 412, 436, 445). -/
def lenL (duration : ℚ) : ℕ :=
  (jsCeil duration).toNat + 1

/-- Inclusive range sum `sumRange(a, b)` over a per-second score
(maindl.js lines 457–459; always called with `a ≤ b`). -/
def windowSum (sc : ℕ → ℚ) (a b : ℕ) : ℚ :=
  ∑ i ∈ Finset.Icc a b, sc i

/-- The cumulative-sum array `prefix` of maindl.js lines 455–456:
starts as `[0]` and pushes the running total for each cell. -/
def prefixSums (sc : ℕ → ℚ) (len : ℕ) : List ℚ :=
  ((List.range len).foldl (fun p i => (p.1 ++ [p.2 + sc i], p.2 + sc i)) ([0], 0)).1

/-- The loop body of the sliding evaluation (maindl.js lines 460–463):
the candidate window at integer `start`, scored by the mean of the
combined score over the clipped cell range
`[start, min(L-1, start+span-1)]`. -/
def mkWindow (duration : ℚ) (timestampSeconds : List ℕ) (sceneCuts : List ℚ)
    (span : ℕ) (start : ℕ) : ScoredWindow :=
  let endIdx := min (lenL duration - 1) (start + span - 1)
  { start := start
  , stop := (start : ℚ) + (span : ℚ)
  , score := windowSum (combinedScore timestampSeconds sceneCuts) start endIdx /
      ((endIdx - start + 1 : ℕ) : ℚ) }

/-- The sliding-window candidate list (maindl.js lines 451–464): one
candidate per integer start in `[0, max(0, floor(duration - span))]`
(the `max(0, ·)` is the `Int.toNat`). -/
def windowScores (duration : ℚ) (timestampSeconds : List ℕ) (sceneCuts : List ℚ)
    (span : ℕ) : List ScoredWindow :=
  (List.range ((Rat.floor (duration - (span : ℚ))).toNat + 1)).map
    (mkWindow duration timestampSeconds sceneCuts span)

/-- The comparator of `windowScores.sort((a, b) => b.score - a.score)`
read as a preorder: `a` may precede `b` iff `b.score ≤ a.score`. -/
def scoreGe (a b : ScoredWindow) : Prop :=
  b.score ≤ a.score

instance : DecidableRel scoreGe := fun a b =>
  inferInstanceAs (Decidable (b.score ≤ a.score))

instance : IsTotal ScoredWindow scoreGe :=
  ⟨fun a b => le_total b.score a.score⟩

instance : IsTrans ScoredWindow scoreGe :=
  ⟨fun _ _ _ h1 h2 => le_trans h2 h1⟩

/-- Stable descending sort of the candidates (maindl.js line 466);
`List.insertionSort` is extensionally the unique stable sort for this
comparator, hence models the ECMAScript stable `Array.prototype.sort`. -/
def sortWindows (l : List ScoredWindow) : List ScoredWindow :=
  List.insertionSort scoreGe l

/-- The overlap test of maindl.js line 472:
`!(w.end <= c.start || w.start >= c.end)`. -/
def overlapsB (w : ScoredWindow) (c : Moment) : Bool :=
  !(decide (w.stop ≤ (c.start : ℚ)) || decide (c.stop ≤ (w.start : ℚ)))

/-- The human-readable justification of maindl.js lines 473–479. -/
def mkReason (timestampSeconds : List ℕ) (sceneCuts : List ℚ) (w : ScoredWindow) : String :=
  let tsCount :=
    (timestampSeconds.filter fun ts =>
      decide ((w.start : ℚ) ≤ (ts : ℚ) ∧ (ts : ℚ) ≤ w.stop)).length
  let cutsCount :=
    (sceneCuts.filter fun sc => decide ((w.start : ℚ) ≤ sc ∧ sc ≤ w.stop)).length
  let reasonParts : List String :=
    (if tsCount ≠ 0 then [toString tsCount ++ " timestamps"] else []) ++
      (if cutsCount ≠ 0 then [toString cutsCount ++ " coupes"] else [])
  let reasonParts := if reasonParts.isEmpty then ["relative activity"] else reasonParts
  String.intercalate ", " reasonParts

/-- The greedy non-overlapping selection loop (maindl.js lines 469–481):
stop once `maxHighlights` windows are chosen, skip overlapping
candidates, otherwise push the candidate with its end truncated to the
total duration. -/
def chooseLoop (duration : ℚ) (maxHighlights : ℕ) (timestampSeconds : List ℕ)
    (sceneCuts : List ℚ) : List ScoredWindow → List Moment → List Moment
  | [], chosen => chosen
  | w :: ws, chosen =>
    if maxHighlights ≤ chosen.length then chosen
    else if chosen.any (overlapsB w) then
      chooseLoop duration maxHighlights timestampSeconds sceneCuts ws chosen
    else
      chooseLoop duration maxHighlights timestampSeconds sceneCuts ws
        (chosen ++ [{ start := w.start, stop := min duration w.stop, score := w.score,
                      reason := mkReason timestampSeconds sceneCuts w }])

/-- `getBestMoments` (maindl.js lines 341–489), with the external I/O
made explicit: `filesOk` stands for the three `fs.existsSync` checks,
`duration` for the parsed ffmpeg duration (`0` when the `Duration:`
line could not be parsed, making `!duration` true), `tssRaw` for the
timestamps parsed out of description/comments and `cutsRaw` for the
scene-cut instants parsed from the scene-detection run. -/
def getBestMoments (filesOk : Bool) (duration : ℚ) (tssRaw : List ℕ) (cutsRaw : List ℚ)
    (maxHighlights spanSeconds : ℕ) : List Moment :=
  if !filesOk then []
  else if duration ≤ 0 then []
  else
    let timestampSeconds := tssRaw.filter fun (t : ℕ) => decide ((t : ℚ) ≤ duration)
    let sceneCuts :=
      List.insertionSort (fun a b : ℚ => a ≤ b)
        (cutsRaw.filter fun c => decide (c ≤ duration))
    let sorted := sortWindows (windowScores duration timestampSeconds sceneCuts spanSeconds)
    let chosen := chooseLoop duration maxHighlights timestampSeconds sceneCuts sorted []
    if chosen.isEmpty then
      [{ start := 0, stop := min duration (spanSeconds : ℚ), score := 0, reason := "fallback" }]
    else chosen

/-- Two selected moments occupy disjoint half-open intervals
`[start, stop)` — they share no instant. -/
def disjointM (c d : Moment) : Prop :=
  c.stop ≤ (d.start : ℚ) ∨ d.stop ≤ (c.start : ℚ)

/-- Two planned windows occupy disjoint half-open intervals
`[start, stop)` — they share no instant. -/
def disjointR (a b : TRange) : Prop :=
  a.stop ≤ b.start ∨ b.stop ≤ a.start

/-! ### Segment plan builder (maindl.js lines 688–755) -/

/-- The auto-split loop shared by the whole-video branch (lines 720–728)
and the explicit-ranges branch (lines 742–753):
`while (cur + targetSegment <= end) push [cur, cur+T]; if (cur < end)
push [cur, end]`.  The `0 < targetSegment` conjunct in the guard only
rules out the value `targetSegment = 0`, on which the source loop would
not terminate; `segmentLength` is validated positive by the prompt code
(lines 594–605). -/
def autoSplitGo (targetSegment : ℕ) (stop cur : ℚ) : List TRange :=
  if h : 0 < targetSegment ∧ cur + (targetSegment : ℚ) ≤ stop then
    ⟨cur, cur + (targetSegment : ℚ)⟩ :: autoSplitGo targetSegment stop (cur + (targetSegment : ℚ))
  else if cur < stop then [⟨cur, stop⟩]
  else []
termination_by (Int.ceil ((stop - cur) / (targetSegment : ℚ))).toNat
decreasing_by
  have h1 := h.1
  have h2 := h.2
  have hT : (0 : ℚ) < (targetSegment : ℚ) := by exact_mod_cast h1
  have hrw : (stop - (cur + (targetSegment : ℚ))) / (targetSegment : ℚ) =
      (stop - cur) / (targetSegment : ℚ) - 1 := by
    field_simp
    ring
  have hx : (1 : ℚ) ≤ (stop - cur) / (targetSegment : ℚ) := by
    rw [le_div_iff₀ hT]
    linarith
  have hge : (1 : ℤ) ≤ Int.ceil ((stop - cur) / (targetSegment : ℚ)) := by
    calc (1 : ℤ) = Int.ceil (1 : ℚ) := by simp
    _ ≤ _ := Int.ceil_le_ceil hx
  rw [hrw, Int.ceil_sub_one]
  omega

/-- The per-range body of the explicit-ranges `flatMap` (maindl.js lines
743–753): an empty result for a degenerate range, otherwise the
auto-split loop from the range start. -/
def splitRange (targetSegment : ℕ) (r : TRange) : List TRange :=
  if r.stop ≤ r.start then [] else autoSplitGo targetSegment r.stop r.start

/-- Number of full-length windows the auto-split loop produces for a
range: `⌊(stop - start) / targetSegment⌋`. -/
def fullSegments (targetSegment : ℕ) (r : TRange) : ℕ :=
  (Rat.floor ((r.stop - r.start) / (targetSegment : ℚ))).toNat

/-- The three selection modes of the interactive prompt (maindl.js lines
557–591), with the external inputs of each mode attached: the highlight
mode carries the scorer inputs, the others the auto-split flag and (for
explicit mode) the parsed ranges. -/
inductive Mode where
  | highlight (maxHighlights : ℕ) (tssRaw : List ℕ) (cutsRaw : List ℚ) (filesOk : Bool)
  | wholeVideo (autoSplit : Bool)
  | explicitRanges (rangesInput : List TRange) (autoSplit : Bool)

/-- The `expandedRanges` construction (maindl.js lines 688–755).
`durationParse` is the result of parsing `Duration:` out of the ffmpeg
banner; `none` models a failed parse.  In whole-video mode a failed
parse hits `process.exit(1)` (line 715), modelled as `none`; in
highlight mode it makes the scorer return `[]` and the caller fall back
to the single window `[0, segmentLength]` (line 701); in explicit mode
the duration is never consulted. -/
def buildPlan (mode : Mode) (durationParse : Option ℚ) (segmentLength : ℕ) :
    Option (List TRange) :=
  match mode with
  | .highlight maxHighlights tssRaw cutsRaw filesOk =>
      let highlights :=
        getBestMoments filesOk (durationParse.getD 0) tssRaw cutsRaw maxHighlights segmentLength
      let expandedRanges := highlights.map fun h => TRange.mk (h.start : ℚ) h.stop
      some (if expandedRanges.isEmpty then [⟨0, (segmentLength : ℚ)⟩] else expandedRanges)
  | .wholeVideo autoSplit =>
      match durationParse with
      | none => none
      | some videoDuration =>
          some (if autoSplit then autoSplitGo segmentLength videoDuration 0
                else [⟨0, videoDuration⟩])
  | .explicitRanges rangesInput autoSplit =>
      some (if autoSplit then rangesInput.flatMap (splitRange segmentLength)
            else rangesInput)

/-! ### Render orchestration loop (maindl.js lines 799–847) -/

/-- What happened to one planned window: skipped by the `end <= start`
validation (line 801), rendered by a successful transcoder call, or
recorded as failed by the `catch` of line 844. -/
inductive RenderEvent where
  | skippedRange (i : ℕ)
  | rendered (i : ℕ) (fx : EffectProfile)
  | failed (i : ℕ) (fx : EffectProfile)
deriving DecidableEq

/-- The window index an event belongs to. -/
def eventIndex : RenderEvent → ℕ
  | .skippedRange i => i
  | .rendered i _ => i
  | .failed i _ => i

/-- Whether an event corresponds to an actual transcoder invocation. -/
def isInvocation : RenderEvent → Bool
  | .skippedRange _ => false
  | .rendered _ _ => true
  | .failed _ _ => true

/-- Number of transcoder invocations recorded for window `i`. -/
def invocations (events : List RenderEvent) (i : ℕ) : ℕ :=
  (events.filter fun e => isInvocation e && (eventIndex e == i)).length

/-- The per-range processing loop (maindl.js lines 799–847).  `ok i`
is the success of the (one-shot) `execSync` transcoder call for window
`i`; `i` is the loop index and `k` the random-stream cursor.  A valid
window generates one effect profile (line 808) and then performs exactly
one transcoder call whose failure is caught and logged (lines 842–846);
the `+ 5` accounts for the unique-metadata and audio-bitrate draws of
lines 817–837. -/
def renderLoop (ok : ℕ → Bool) (rng : ℕ → ℚ) : List TRange → ℕ → ℕ → List RenderEvent
  | [], _, _ => []
  | r :: rs, i, k =>
    if r.stop ≤ r.start then
      .skippedRange i :: renderLoop ok rng rs (i + 1) k
    else
      let p := generateUniqueEffects rng k
      (if ok i then .rendered i p.1 else .failed i p.1) ::
        renderLoop ok rng rs (i + 1) (p.2 + 5)

/-- The planning-then-rendering pipeline: the plan is built once, fully,
before any rendering begins (maindl.js lines 688–755 precede the loop of
line 799), and the loop then walks it with the transcoder oracle and the
random stream. -/
def runPipeline (mode : Mode) (durationParse : Option ℚ) (segmentLength : ℕ)
    (ok : ℕ → Bool) (rng : ℕ → ℚ) : Option (List TRange × List RenderEvent) :=
  match buildPlan mode durationParse segmentLength with
  | none => none
  | some plan => some (plan, renderLoop ok rng plan 0 0)

/-! ### Video filter construction (maindl.js lines 166–298) -/

/-- A single-quote character, written via its code point. -/
def sq : String :=
  String.singleton (Char.ofNat 39)

/-- The rational closest to the IEEE double `Math.PI`. -/
def piQ : ℚ :=
  3.141592653589793

/-- `getLogoPosition` (maindl.js lines 172–180). -/
def getLogoPosition (position : String) (margin : ℤ) : String :=
  let ms := toString margin
  if position = "hg" then ms ++ ":" ++ ms
  else if position = "hd" then "W-w-" ++ ms ++ ":" ++ ms
  else if position = "bg" then ms ++ ":H-h-" ++ ms
  else "W-w-" ++ ms ++ ":H-h-" ++ ms

/-- `rotationRad` (maindl.js line 192): `(deg * Math.PI / 180).toFixed(6)`. -/
def rotationRadStr (fmt : ℚ → String) (e : EffectProfile) : String :=
  fmt (roundTo 6 (e.rotationDeg * piQ / 180))

/-- `colorFilter` (maindl.js line 195). -/
def colorFilter (fmt : ℚ → String) (e : EffectProfile) : String :=
  "eq=saturation=" ++ fmt e.saturation ++ ":contrast=" ++ fmt e.contrast ++
    ":gamma=" ++ fmt e.gamma ++ ":brightness=" ++ fmt e.brightness

/-- `hueFilter` (maindl.js line 198). -/
def hueFilter (fmt : ℚ → String) (e : EffectProfile) : String :=
  "hue=h=" ++ fmt e.hue

/-- `colorBalanceFilter` (maindl.js line 201); the `.toFixed(3)` calls
are modelled by `roundTo 3`. -/
def colorBalanceFilter (fmt : ℚ → String) (e : EffectProfile) : String :=
  "colorbalance=rs=" ++ fmt (roundTo 3 (e.colorTempR - 1)) ++
    ":gs=" ++ fmt (roundTo 3 (e.colorTempG - 1)) ++
    ":bs=" ++ fmt (roundTo 3 (e.colorTempB - 1))

/-- `curvesFilter` (maindl.js line 205). -/
def curvesFilter : String :=
  "curves=r=" ++ sq ++ "0/0 1/1" ++ sq ++ ":g=" ++ sq ++ "0/0 1/1" ++ sq ++
    ":b=" ++ sq ++ "0/0.01 1/0.99" ++ sq

/-- `waveFilter` (maindl.js lines 209–211); `Math.round` of the halved
shifts is the ties-up integer rounding. -/
def waveFilter (fmt : ℚ → String) (e : EffectProfile) : String :=
  "rgbashift=rh=" ++ fmt e.rgbaShiftH ++ ":rv=" ++ fmt e.rgbaShiftV ++
    ":gh=" ++ fmt (-e.rgbaShiftH) ++ ":gv=" ++ fmt (-e.rgbaShiftV) ++
    ":bh=" ++ toString (Rat.floor (e.rgbaShiftH / 2 + 1 / 2)) ++
    ":bv=" ++ toString (Rat.floor (e.rgbaShiftV / 2 + 1 / 2))

/-- `zoomScale` (maindl.js line 214). -/
def zoomScale (fmt : ℚ → String) (e : EffectProfile) : String :=
  "scale=iw*" ++ fmt e.zoom ++ ":ih*" ++ fmt e.zoom

/-- `rotateFilter` (maindl.js line 215). -/
def rotateFilter (fmt : ℚ → String) (e : EffectProfile) : String :=
  "rotate=" ++ rotationRadStr fmt e ++ ":c=black@0:ow=rotw(" ++ rotationRadStr fmt e ++
    "):oh=roth(" ++ rotationRadStr fmt e ++ ")"

/-- `grainFilter` (maindl.js line 218). -/
def grainFilter (fmt : ℚ → String) (e : EffectProfile) : String :=
  "noise=alls=" ++ fmt e.grain ++ ":allf=t+u"

/-- `blurFilter` (maindl.js line 221). -/
def blurFilter (fmt : ℚ → String) (e : EffectProfile) : String :=
  "unsharp=5:5:" ++ fmt e.blur ++ ":5:5:0"

/-- `mirrorFilter` (maindl.js line 224): `effects.mirror ? ',hflip' : ''`. -/
def mirrorFilter (e : EffectProfile) : String :=
  if e.mirror then ",hflip" else ""

/-- `speedFilter` (maindl.js line 227). -/
def speedFilter (fmt : ℚ → String) (e : EffectProfile) : String :=
  if e.speed ≠ 1 then "setpts=" ++ fmt (roundTo 4 (1 / e.speed)) ++ "*PTS" else ""

/-- `advancedColorFilters` (maindl.js line 230). -/
def advancedColorFilters (fmt : ℚ → String) (e : EffectProfile) : String :=
  colorFilter fmt e ++ "," ++ hueFilter fmt e ++ "," ++ colorBalanceFilter fmt e ++
    "," ++ curvesFilter ++ "," ++ waveFilter fmt e

/-- `speedPart` (maindl.js line 238). -/
def speedPart (fmt : ℚ → String) (e : EffectProfile) : String :=
  if speedFilter fmt e ≠ "" then "," ++ speedFilter fmt e else ""

/-- Everything of `videoTransform` (maindl.js line 245) before the
mirror and speed suffixes. -/
def vtBase (fmt : ℚ → String) (e : EffectProfile) : String :=
  zoomScale fmt e ++ "," ++ rotateFilter fmt e ++ ",crop=iw/" ++ fmt e.zoom ++
    ":ih/" ++ fmt e.zoom ++ ":(iw-iw/" ++ fmt e.zoom ++ ")/2+" ++ fmt e.panX ++
    ":(ih-ih/" ++ fmt e.zoom ++ ")/2+" ++ fmt e.panY ++ "," ++
    advancedColorFilters fmt e ++ "," ++ grainFilter fmt e ++ "," ++ blurFilter fmt e

/-- `videoTransform` (maindl.js line 245). -/
def videoTransform (fmt : ℚ → String) (e : EffectProfile) : String :=
  vtBase fmt e ++ mirrorFilter e ++ speedPart fmt e

/-- `logoScale` (maindl.js line 234). -/
def logoScaleStr (fmt : ℚ → String) (e : EffectProfile) : String :=
  "scale=1080*" ++ fmt e.logo.scale ++ ":-1"

/-- `logoOpacity` (maindl.js line 235). -/
def logoOpacityStr (fmt : ℚ → String) (e : EffectProfile) : String :=
  if e.logo.opacity < 1 then
    ",format=rgba,colorchannelmixer=aa=" ++ fmt e.logo.opacity
  else ""

/-- The background part of the blur-fill template (maindl.js lines
250–251, between the transformed foreground and the branch suffix). -/
def blurTail : String :=
  ",scale=1080:-1[fg];[bg]scale=1080:1920:force_original_aspect_ratio=increase,boxblur=20:1,crop=1080:1920[bl];"

/-- The crop suffix of the simple-crop template (maindl.js lines 278,
294). -/
def cropTail : String :=
  ",crop=" ++ sq ++ "min(iw,ih*9/16)" ++ sq ++ ":" ++ sq ++
    "min(ih,iw*16/9)" ++ sq ++ ":(iw-ow)/2:(ih-oh)/2,scale=1080:1920"

/-- `buildVideoFilter` (maindl.js lines 191–298), with the JavaScript
number formatting abstracted as `fmt`. -/
def buildVideoFilter (fmt : ℚ → String) (useBlurFill hasLogo hasWatermark : Bool)
    (effects : EffectProfile) : String :=
  let logoPos := getLogoPosition effects.logo.position effects.logo.margin
  let watermarkInput := if hasWatermark then "[1:v]" else ""
  let logoInput := if hasLogo then (if hasWatermark then "[2:v]" else "[1:v]") else ""
  if useBlurFill then
    let base := "\"split=2[main][bg];[main]" ++ videoTransform fmt effects ++ blurTail
    if hasWatermark ∧ hasLogo then
      base ++ watermarkInput ++ "scale=1080:-1[wm];[fg][wm]overlay=0:(H-h)/2[fgwm];" ++
        logoInput ++ logoScaleStr fmt effects ++ logoOpacityStr fmt effects ++
        "[logo];[fgwm][logo]overlay=" ++ logoPos ++
        "[fglogo];[bl][fglogo]overlay=(W-w)/2:(H-h)/2\""
    else if hasWatermark then
      base ++ watermarkInput ++ "scale=1080:-1[wm];[fg][wm]overlay=0:(H-h)/2[fgwm];" ++
        "[bl][fgwm]overlay=(W-w)/2:(H-h)/2\""
    else if hasLogo then
      base ++ logoInput ++ logoScaleStr fmt effects ++ logoOpacityStr fmt effects ++
        "[logo];[fg][logo]overlay=" ++ logoPos ++
        "[fglogo];[bl][fglogo]overlay=(W-w)/2:(H-h)/2\""
    else
      base ++ "[bl][fg]overlay=(W-w)/2:(H-h)/2\""
  else
    if hasWatermark ∧ hasLogo then
      "\"" ++ videoTransform fmt effects ++ cropTail ++ "[vid];" ++
        watermarkInput ++ "scale=1080:1920[wm];[vid][wm]overlay=0:0[vidwm];" ++
        logoInput ++ logoScaleStr fmt effects ++ logoOpacityStr fmt effects ++
        "[logo];[vidwm][logo]overlay=" ++ logoPos ++ "\""
    else if hasWatermark then
      "\"" ++ videoTransform fmt effects ++ cropTail ++ "[vid];" ++
        watermarkInput ++ "scale=1080:1920[wm];[vid][wm]overlay=0:0\""
    else if hasLogo then
      "\"" ++ videoTransform fmt effects ++ cropTail ++ "[vid];" ++
        logoInput ++ logoScaleStr fmt effects ++ logoOpacityStr fmt effects ++
        "[logo];[vid][logo]overlay=" ++ logoPos ++ "\""
    else
      "\"" ++ videoTransform fmt effects ++ cropTail ++ "\""

/-! ## Bridge lemmas between the computable rounding functions and the
Mathlib floor/ceil -/

theorem ratFloor_eq (q : ℚ) : Rat.floor q = ⌊q⌋ :=
  (Rat.floor_def' q).trans Rat.floor_def.symm

theorem jsCeil_eq (q : ℚ) : jsCeil q = ⌈q⌉ := by
  unfold jsCeil
  rw [ratFloor_eq, Int.floor_neg, neg_neg]

/-! ## Rounding and sampling ranges (for C4) -/

theorem roundTo_mono (d : ℕ) {x y : ℚ} (h : x ≤ y) : roundTo d x ≤ roundTo d y := by
  have hp : (0 : ℚ) < 10 ^ d := by positivity
  have hfl : Rat.floor (x * 10 ^ d + 1 / 2) ≤ Rat.floor (y * 10 ^ d + 1 / 2) := by
    rw [ratFloor_eq, ratFloor_eq]
    apply Int.floor_mono
    have := mul_le_mul_of_nonneg_right h (le_of_lt hp)
    linarith
  unfold roundTo
  have hc : ((Rat.floor (x * 10 ^ d + 1 / 2) : ℤ) : ℚ) ≤
      ((Rat.floor (y * 10 ^ d + 1 / 2) : ℤ) : ℚ) := by exact_mod_cast hfl
  exact div_le_div_of_nonneg_right hc (le_of_lt hp)

/-- The sampled value of `randomInRange lo hi r` stays in the closed
interval `[lo, hi]` whenever the bounds are exact 4-decimal grid points
and `r` obeys the `Math.random()` contract `0 ≤ r < 1`. -/
theorem randomInRange_bounds {lo hi r : ℚ} (hlohi : lo ≤ hi) (hlo : roundTo 4 lo = lo)
    (hhi : roundTo 4 hi = hi) (h0 : 0 ≤ r) (h1 : r < 1) :
    lo ≤ randomInRange lo hi r ∧ randomInRange lo hi r ≤ hi := by
  have hx1 : lo ≤ lo + r * (hi - lo) := by nlinarith
  have hx2 : lo + r * (hi - lo) ≤ hi := by nlinarith
  unfold randomInRange
  constructor
  · calc lo = roundTo 4 lo := hlo.symm
    _ ≤ _ := roundTo_mono 4 hx1
  · calc roundTo 4 (lo + r * (hi - lo)) ≤ roundTo 4 hi := roundTo_mono 4 hx2
    _ = hi := hhi

set_option maxHeartbeats 4000000 in
/-- C4: every numeric field of the `EffectProfile` returned by
`generateUniqueEffects` lies within its documented closed range — in
particular `colorTempR`, `colorTempG`, `colorTempB` within
`[0.96, 1.04]`, `rotationDeg` within `[0.1, 0.5]`, `zoom` within
`[1.01, 1.04]`, `crf` an integer in `{21, …, 25}`, `preset` drawn from
`{fast, medium}` — and the `speed` field is exactly `1.0` on every
call. -/
theorem C4_effect_ranges (rng : ℕ → ℚ) (k : ℕ) (hr : ∀ n, 0 ≤ rng n ∧ rng n < 1) :
    EffectInRanges (generateUniqueEffects rng k).1 := by
  have hb : ∀ lo hi : ℚ, lo ≤ hi → roundTo 4 lo = lo → roundTo 4 hi = hi → ∀ n,
      lo ≤ randomInRange lo hi (rng n) ∧ randomInRange lo hi (rng n) ≤ hi :=
    fun lo hi h hl hh n => randomInRange_bounds h hl hh (hr n).1 (hr n).2
  have hfl : ∀ (a b : ℤ) (x : ℚ), (a : ℚ) ≤ x → x ≤ (b : ℚ) →
      a ≤ Rat.floor x ∧ Rat.floor x ≤ b := by
    intro a b x h1 h2
    rw [ratFloor_eq]
    refine ⟨Int.le_floor.mpr (by exact_mod_cast h1), ?_⟩
    calc ⌊x⌋ ≤ ⌊(b : ℚ)⌋ := Int.floor_mono h2
    _ = b := Int.floor_intCast b
  have hch : ∀ r : ℚ, 0 ≤ r → r < 1 →
      (randomChoice ["fast", "medium"] "fast" r = "fast" ∨
        randomChoice ["fast", "medium"] "fast" r = "medium") := by
    intro r h0 h1
    unfold randomChoice
    rw [ratFloor_eq]
    have hlen : (((["fast", "medium"] : List String).length : ℕ) : ℚ) = 2 := by norm_num
    rw [hlen]
    have hz0 : 0 ≤ ⌊r * 2⌋ := Int.floor_nonneg.mpr (by nlinarith)
    have hz2 : ⌊r * 2⌋ < 2 := Int.floor_lt.mpr (by push_cast; nlinarith)
    have : ⌊r * 2⌋ = 0 ∨ ⌊r * 2⌋ = 1 := by omega
    rcases this with h | h <;> rw [h] <;> simp [List.getD]
  refine ⟨?_, ?_, ?_, ?_, ?_, ?_, ?_, ?_, ?_, ?_, ?_, ?_, ?_,
      ?_, ?_, ?_, ?_, ?_, ?_, ?_, ?_, ?_, ?_, ?_, ?_, ?_, ?_, ?_, ?_, ?_⟩
  · exact hb 1.01 1.06 (by norm_num) (by with_unfolding_all decide)
      (by with_unfolding_all decide) k
  · exact hb 1.00 1.04 (by norm_num) (by with_unfolding_all decide)
      (by with_unfolding_all decide) (k + 1)
  · exact hb 0.98 1.04 (by norm_num) (by with_unfolding_all decide)
      (by with_unfolding_all decide) (k + 2)
  · exact hb (-0.02) 0.03 (by norm_num) (by with_unfolding_all decide)
      (by with_unfolding_all decide) (k + 3)
  · exact hb (-5) 5 (by norm_num) (by with_unfolding_all decide)
      (by with_unfolding_all decide) (k + 4)
  · have h := hb 0.97 1.03 (by norm_num) (by with_unfolding_all decide)
      (by with_unfolding_all decide) (k + 5)
    constructor
    · show (0.96 : ℚ) ≤ randomInRange 0.97 1.03 (rng (k + 5))
      linarith [h.1]
    · show randomInRange 0.97 1.03 (rng (k + 5)) ≤ (1.04 : ℚ)
      linarith [h.2]
  · have h := hb 0.98 1.02 (by norm_num) (by with_unfolding_all decide)
      (by with_unfolding_all decide) (k + 6)
    constructor
    · show (0.96 : ℚ) ≤ randomInRange 0.98 1.02 (rng (k + 6))
      linarith [h.1]
    · show randomInRange 0.98 1.02 (rng (k + 6)) ≤ (1.04 : ℚ)
      linarith [h.2]
  · exact hb 0.96 1.04 (by norm_num) (by with_unfolding_all decide)
      (by with_unfolding_all decide) (k + 7)
  · exact hb 0.1 0.5 (by norm_num) (by with_unfolding_all decide)
      (by with_unfolding_all decide) (k + 8)
  · exact hb 1.01 1.04 (by norm_num) (by with_unfolding_all decide)
      (by with_unfolding_all decide) (k + 9)
  · exact hb 2 12 (by norm_num) (by with_unfolding_all decide)
      (by with_unfolding_all decide) (k + 10)
  · exact hb 1 8 (by norm_num) (by with_unfolding_all decide)
      (by with_unfolding_all decide) (k + 11)
  · exact hb 2 6 (by norm_num) (by with_unfolding_all decide)
      (by with_unfolding_all decide) (k + 12)
  · exact hb 0.2 0.6 (by norm_num) (by with_unfolding_all decide)
      (by with_unfolding_all decide) (k + 13)
  · exact hb (-2) 2 (by norm_num) (by with_unfolding_all decide)
      (by with_unfolding_all decide) (k + 14)
  · exact hb (-1) 1 (by norm_num) (by with_unfolding_all decide)
      (by with_unfolding_all decide) (k + 15)
  · exact hb 1.3 1.5 (by norm_num) (by with_unfolding_all decide)
      (by with_unfolding_all decide) (k + 16)
  · exact hb 0.48 0.52 (by norm_num) (by with_unfolding_all decide)
      (by with_unfolding_all decide) (k + 17)
  · exact hb 0.48 0.52 (by norm_num) (by with_unfolding_all decide)
      (by with_unfolding_all decide) (k + 18)
  · exact hb (-0.02) 0.02 (by norm_num) (by with_unfolding_all decide)
      (by with_unfolding_all decide) (k + 19)
  · exact hb (-0.01) 0.01 (by norm_num) (by with_unfolding_all decide)
      (by with_unfolding_all decide) (k + 20)
  · exact hb 0.98 1.03 (by norm_num) (by with_unfolding_all decide)
      (by with_unfolding_all decide) (k + 21)
  · exact hb 0.5 2.5 (by norm_num) (by with_unfolding_all decide)
      (by with_unfolding_all decide) (k + 22)
  · exact hb (-1.5) 0.5 (by norm_num) (by with_unfolding_all decide)
      (by with_unfolding_all decide) (k + 23)
  · exact hb 0.10 0.14 (by norm_num) (by with_unfolding_all decide)
      (by with_unfolding_all decide) (k + 24)
  · have h := hb 0.85 1.0 (by norm_num) (by with_unfolding_all decide)
      (by with_unfolding_all decide) (k + 25)
    constructor
    · exact h.1
    · show randomInRange 0.85 1.0 (rng (k + 25)) ≤ (1 : ℚ)
      linarith [h.2]
  · have h := hb 8 15 (by norm_num) (by with_unfolding_all decide)
      (by with_unfolding_all decide) (k + 26)
    show (8 : ℤ) ≤ Rat.floor (randomInRange 8 15 (rng (k + 26))) ∧
      Rat.floor (randomInRange 8 15 (rng (k + 26))) ≤ 15
    exact hfl 8 15 _ (by exact_mod_cast h.1) (by exact_mod_cast h.2)
  · have h := hb 21 25 (by norm_num) (by with_unfolding_all decide)
      (by with_unfolding_all decide) (k + 27)
    show (21 : ℤ) ≤ Rat.floor (randomInRange 21 25 (rng (k + 27))) ∧
      Rat.floor (randomInRange 21 25 (rng (k + 27))) ≤ 25
    exact hfl 21 25 _ (by exact_mod_cast h.1) (by exact_mod_cast h.2)
  · exact hch (rng (k + 28)) (hr (k + 28)).1 (hr (k + 28)).2
  · show (1.0 : ℚ) = 1
    norm_num

/-! ## String infrastructure (for C10) -/

theorem str_append_assoc (a b c : String) : a ++ b ++ c = a ++ (b ++ c) := by
  apply String.ext
  simp [String.data_append, List.append_assoc]

theorem exists_mid_self (m : String) : ∃ s t, m = s ++ m ++ t :=
  ⟨"", "", by simp⟩

theorem exists_mid_append_left (p : String) {x m : String}
    (h : ∃ s t, x = s ++ m ++ t) : ∃ s t, p ++ x = s ++ m ++ t := by
  obtain ⟨s, t, rfl⟩ := h
  exact ⟨p ++ s, t, by simp [str_append_assoc]⟩

theorem exists_mid_append_right (q : String) {x m : String}
    (h : ∃ s t, x = s ++ m ++ t) : ∃ s t, x ++ q = s ++ m ++ t := by
  obtain ⟨s, t, rfl⟩ := h
  exact ⟨s, t ++ q, by simp [str_append_assoc]⟩

/-- When the mirror flag is set, `videoTransform` ends in
`,hflip` followed by the (possibly empty) speed part. -/
theorem videoTransform_hflip (fmt : ℚ → String) (e : EffectProfile) (he : e.mirror = true) :
    videoTransform fmt e = vtBase fmt e ++ ",hflip" ++ speedPart fmt e := by
  simp [videoTransform, mirrorFilter, he, str_append_assoc]

/-- Every branch of `buildVideoFilter` splices the full `videoTransform`
chain into the produced filter string. -/
theorem buildVideoFilter_decomp (fmt : ℚ → String) (ubf hl hw : Bool) (e : EffectProfile) :
    ∃ s t, buildVideoFilter fmt ubf hl hw e = s ++ videoTransform fmt e ++ t := by
  cases ubf <;> cases hl <;> cases hw
  · exact ⟨"\"", cropTail ++ "\"", by simp [buildVideoFilter, str_append_assoc]⟩
  · exact ⟨"\"", cropTail ++ "[vid];" ++ "[1:v]" ++
      "scale=1080:1920[wm];[vid][wm]overlay=0:0\"",
      by simp [buildVideoFilter, str_append_assoc]⟩
  · exact ⟨"\"", cropTail ++ "[vid];" ++ "[1:v]" ++ logoScaleStr fmt e ++
      logoOpacityStr fmt e ++ "[logo];[vid][logo]overlay=" ++
      getLogoPosition e.logo.position e.logo.margin ++ "\"",
      by simp [buildVideoFilter, str_append_assoc]⟩
  · exact ⟨"\"", cropTail ++ "[vid];" ++ "[1:v]" ++
      "scale=1080:1920[wm];[vid][wm]overlay=0:0[vidwm];" ++ "[2:v]" ++ logoScaleStr fmt e ++
      logoOpacityStr fmt e ++ "[logo];[vidwm][logo]overlay=" ++
      getLogoPosition e.logo.position e.logo.margin ++ "\"",
      by simp [buildVideoFilter, str_append_assoc]⟩
  · exact ⟨"\"split=2[main][bg];[main]", blurTail ++ "[bl][fg]overlay=(W-w)/2:(H-h)/2\"",
      by simp [buildVideoFilter, str_append_assoc]⟩
  · exact ⟨"\"split=2[main][bg];[main]", blurTail ++ "[1:v]" ++
      "scale=1080:-1[wm];[fg][wm]overlay=0:(H-h)/2[fgwm];" ++
      "[bl][fgwm]overlay=(W-w)/2:(H-h)/2\"",
      by simp [buildVideoFilter, str_append_assoc]⟩
  · exact ⟨"\"split=2[main][bg];[main]", blurTail ++ "[1:v]" ++ logoScaleStr fmt e ++
      logoOpacityStr fmt e ++ "[logo];[fg][logo]overlay=" ++
      getLogoPosition e.logo.position e.logo.margin ++
      "[fglogo];[bl][fglogo]overlay=(W-w)/2:(H-h)/2\"",
      by simp [buildVideoFilter, str_append_assoc]⟩
  · exact ⟨"\"split=2[main][bg];[main]", blurTail ++ "[1:v]" ++
      "scale=1080:-1[wm];[fg][wm]overlay=0:(H-h)/2[fgwm];" ++ "[2:v]" ++ logoScaleStr fmt e ++
      logoOpacityStr fmt e ++ "[logo];[fgwm][logo]overlay=" ++
      getLogoPosition e.logo.position e.logo.margin ++
      "[fglogo];[bl][fglogo]overlay=(W-w)/2:(H-h)/2\"",
      by simp [buildVideoFilter, str_append_assoc]⟩

/-- C10: the `mirror` field of every generated `EffectProfile` is
`true`, and therefore the `hflip` filter is always included in the video
filter chain built by `buildVideoFilter`, in every branch (blur-fill or
crop, with or without logo and watermark) and for every number
formatting. -/
theorem C10_mirror_and_hflip (rng : ℕ → ℚ) (k : ℕ) (fmt : ℚ → String)
    (useBlurFill hasLogo hasWatermark : Bool) :
    (generateUniqueEffects rng k).1.mirror = true ∧
      ∃ s t, buildVideoFilter fmt useBlurFill hasLogo hasWatermark
        (generateUniqueEffects rng k).1 = s ++ ",hflip" ++ t := by
  have key : ∀ e : EffectProfile, e.mirror = true →
      ∃ s t, buildVideoFilter fmt useBlurFill hasLogo hasWatermark e = s ++ ",hflip" ++ t := by
    intro e he
    obtain ⟨a, b, hab⟩ := buildVideoFilter_decomp fmt useBlurFill hasLogo hasWatermark e
    refine ⟨a ++ vtBase fmt e, speedPart fmt e ++ b, ?_⟩
    rw [hab, videoTransform_hflip fmt e he]
    simp [str_append_assoc]
  exact ⟨rfl, key _ rfl⟩

/-- C9: re-running the segment plan builder with identical inputs yields
the identical plan; the planned window list of a full pipeline run does
not depend on the transcoder outcomes or on the random stream — only the
per-window effect generation consumes the randomness. -/
theorem C9_planning_deterministic (mode : Mode) (durationParse : Option ℚ)
    (segmentLength : ℕ) (ok₁ ok₂ : ℕ → Bool) (rng₁ rng₂ : ℕ → ℚ) :
    (runPipeline mode durationParse segmentLength ok₁ rng₁).map Prod.fst =
      (runPipeline mode durationParse segmentLength ok₂ rng₂).map Prod.fst := by
  unfold runPipeline
  cases buildPlan mode durationParse segmentLength
  · rfl
  · simp

/-! ## Render loop lemmas (for C3) -/

theorem eventIndex_ite (b : Prop) [Decidable b] (i : ℕ) (fx : EffectProfile) :
    eventIndex (if b then RenderEvent.rendered i fx else RenderEvent.failed i fx) = i := by
  split <;> rfl

theorem isInvocation_ite (b : Prop) [Decidable b] (i : ℕ) (fx : EffectProfile) :
    isInvocation (if b then RenderEvent.rendered i fx else RenderEvent.failed i fx) = true := by
  split <;> rfl

theorem renderLoop_length (ok : ℕ → Bool) (rng : ℕ → ℚ) :
    ∀ (rs : List TRange) (i0 k0 : ℕ), (renderLoop ok rng rs i0 k0).length = rs.length := by
  intro rs
  induction rs with
  | nil => intro i0 k0; rfl
  | cons r rs ih =>
    intro i0 k0
    by_cases h : r.stop ≤ r.start <;> simp [renderLoop, h, ih]

theorem renderLoop_index_ge (ok : ℕ → Bool) (rng : ℕ → ℚ) :
    ∀ (rs : List TRange) (i0 k0 : ℕ) (e : RenderEvent),
      e ∈ renderLoop ok rng rs i0 k0 → i0 ≤ eventIndex e := by
  intro rs
  induction rs with
  | nil => intro i0 k0 e he; simp [renderLoop] at he
  | cons r rs ih =>
    intro i0 k0 e he
    by_cases h : r.stop ≤ r.start
    · simp only [renderLoop, if_pos h, List.mem_cons] at he
      rcases he with rfl | he
      · exact le_refl i0
      · exact le_trans (Nat.le_succ i0) (ih (i0 + 1) k0 e he)
    · simp only [renderLoop, if_neg h, List.mem_cons] at he
      rcases he with rfl | he
      · rw [eventIndex_ite]
      · exact le_trans (Nat.le_succ i0) (ih (i0 + 1) _ e he)

theorem invocations_renderLoop_of_lt (ok : ℕ → Bool) (rng : ℕ → ℚ)
    (rs : List TRange) (i0 k0 i : ℕ) (h : i < i0) :
    invocations (renderLoop ok rng rs i0 k0) i = 0 := by
  unfold invocations
  rw [List.length_eq_zero]
  rw [List.filter_eq_nil_iff]
  intro e he
  have hge := renderLoop_index_ge ok rng rs i0 k0 e he
  simp only [Bool.and_eq_true, beq_iff_eq, not_and]
  intro _
  omega

theorem renderLoop_invocations (ok : ℕ → Bool) (rng : ℕ → ℚ) :
    ∀ (rs : List TRange) (i0 k0 j : ℕ), j < rs.length →
      invocations (renderLoop ok rng rs i0 k0) (i0 + j) =
        (if (rs.getD j ⟨0, 0⟩).stop ≤ (rs.getD j ⟨0, 0⟩).start then 0 else 1) := by
  intro rs
  induction rs with
  | nil => intro i0 k0 j hj; simp at hj
  | cons r rs ih =>
    intro i0 k0 j hj
    cases j with
    | zero =>
      simp only [List.getD_cons_zero, Nat.add_zero]
      by_cases h : r.stop ≤ r.start
      · rw [if_pos h]
        simp only [renderLoop, if_pos h]
        rw [invocations, List.filter_cons]
        have : (isInvocation (RenderEvent.skippedRange i0) &&
            (eventIndex (RenderEvent.skippedRange i0) == i0)) = false := rfl
        rw [this]
        simp only [Bool.false_eq_true, if_false]
        exact invocations_renderLoop_of_lt ok rng rs (i0 + 1) k0 i0 (Nat.lt_succ_self i0)
      · rw [if_neg h]
        simp only [renderLoop, if_neg h]
        rw [invocations, List.filter_cons]
        have hinv : (isInvocation (if ok i0 then
              RenderEvent.rendered i0 (generateUniqueEffects rng k0).1
            else RenderEvent.failed i0 (generateUniqueEffects rng k0).1) &&
            (eventIndex (if ok i0 then
              RenderEvent.rendered i0 (generateUniqueEffects rng k0).1
            else RenderEvent.failed i0 (generateUniqueEffects rng k0).1) == i0)) = true := by
          rw [isInvocation_ite, eventIndex_ite]
          simp
        rw [hinv]
        simp only [if_true, List.length_cons]
        have := invocations_renderLoop_of_lt ok rng rs (i0 + 1)
          ((generateUniqueEffects rng k0).2 + 5) i0 (Nat.lt_succ_self i0)
        rw [invocations] at this
        omega
    | succ j =>
      have hj' : j < rs.length := by simpa using hj
      have harith : i0 + (j + 1) = (i0 + 1) + j := by omega
      simp only [List.getD_cons_succ]
      by_cases h : r.stop ≤ r.start
      · simp only [renderLoop, if_pos h]
        rw [invocations, List.filter_cons]
        have : (isInvocation (RenderEvent.skippedRange i0) &&
            (eventIndex (RenderEvent.skippedRange i0) == i0 + (j + 1))) = false := rfl
        rw [this]
        simp only [Bool.false_eq_true, if_false]
        rw [← invocations, harith]
        exact ih (i0 + 1) k0 j hj'
      · simp only [renderLoop, if_neg h]
        rw [invocations, List.filter_cons]
        have : (isInvocation (if ok i0 then
              RenderEvent.rendered i0 (generateUniqueEffects rng k0).1
            else RenderEvent.failed i0 (generateUniqueEffects rng k0).1) &&
            (eventIndex (if ok i0 then
              RenderEvent.rendered i0 (generateUniqueEffects rng k0).1
            else RenderEvent.failed i0 (generateUniqueEffects rng k0).1) == i0 + (j + 1))) =
            false := by
          rw [isInvocation_ite, eventIndex_ite]
          simp only [Bool.true_and, beq_eq_false_iff_ne, ne_eq]
          omega
        rw [this]
        simp only [Bool.false_eq_true, if_false]
        rw [← invocations, harith]
        exact ih (i0 + 1) _ j hj'

theorem renderLoop_getD (ok : ℕ → Bool) (rng : ℕ → ℚ) :
    ∀ (rs : List TRange) (i0 k0 j : ℕ), j < rs.length → ∃ k,
      (renderLoop ok rng rs i0 k0).getD j (RenderEvent.skippedRange 0) =
        if (rs.getD j ⟨0, 0⟩).stop ≤ (rs.getD j ⟨0, 0⟩).start then
          RenderEvent.skippedRange (i0 + j)
        else if ok (i0 + j) then RenderEvent.rendered (i0 + j) (generateUniqueEffects rng k).1
        else RenderEvent.failed (i0 + j) (generateUniqueEffects rng k).1 := by
  intro rs
  induction rs with
  | nil => intro i0 k0 j hj; simp at hj
  | cons r rs ih =>
    intro i0 k0 j hj
    cases j with
    | zero =>
      refine ⟨k0, ?_⟩
      simp only [List.getD_cons_zero, Nat.add_zero]
      by_cases h : r.stop ≤ r.start
      · simp [renderLoop, h]
      · simp [renderLoop, h]
    | succ j =>
      have hj' : j < rs.length := by simpa using hj
      have harith : i0 + (j + 1) = (i0 + 1) + j := by omega
      by_cases h : r.stop ≤ r.start
      · obtain ⟨k, hk⟩ := ih (i0 + 1) k0 j hj'
        refine ⟨k, ?_⟩
        simp only [renderLoop, if_pos h, List.getD_cons_succ, List.getD_cons_succ] at hk ⊢
        rw [harith]
        exact hk
      · obtain ⟨k, hk⟩ := ih (i0 + 1) ((generateUniqueEffects rng k0).2 + 5) j hj'
        refine ⟨k, ?_⟩
        simp only [renderLoop, if_neg h, List.getD_cons_succ, List.getD_cons_succ] at hk ⊢
        rw [harith]
        exact hk

/-- C3: for every planned window list and every transcoder outcome
oracle, the render loop processes every window (one event per window, so
no single failure aborts the run); a window failing the `end ≤ start`
validation receives zero transcoder invocations, every other window
receives exactly one (no automatic retry), and a failed invocation is
recorded as a `failed` event while the loop continues. -/
theorem C3_per_window_isolation (ok : ℕ → Bool) (rng : ℕ → ℚ) (ranges : List TRange) :
    (renderLoop ok rng ranges 0 0).length = ranges.length ∧
    (∀ j, j < ranges.length →
      invocations (renderLoop ok rng ranges 0 0) j =
        (if (ranges.getD j ⟨0, 0⟩).stop ≤ (ranges.getD j ⟨0, 0⟩).start then 0 else 1)) ∧
    (∀ j, j < ranges.length → ∃ k,
      (renderLoop ok rng ranges 0 0).getD j (RenderEvent.skippedRange 0) =
        if (ranges.getD j ⟨0, 0⟩).stop ≤ (ranges.getD j ⟨0, 0⟩).start then
          RenderEvent.skippedRange j
        else if ok j then RenderEvent.rendered j (generateUniqueEffects rng k).1
        else RenderEvent.failed j (generateUniqueEffects rng k).1) := by
  refine ⟨renderLoop_length ok rng ranges 0 0, ?_, ?_⟩
  · intro j hj
    have := renderLoop_invocations ok rng ranges 0 0 j hj
    simpa using this
  · intro j hj
    have := renderLoop_getD ok rng ranges 0 0 j hj
    simpa using this

/-- Witness for C3: two planned windows, the transcoder failing on
every call; both windows are processed, the valid one gets exactly one
invocation, the degenerate one none. -/
theorem C3_per_window_isolation_witness :
    (renderLoop (fun _ => false) (fun _ => 0) [⟨0, 61⟩, ⟨5, 3⟩] 0 0).length = 2 ∧
    invocations (renderLoop (fun _ => false) (fun _ => 0) [⟨0, 61⟩, ⟨5, 3⟩] 0 0) 0 = 1 ∧
    invocations (renderLoop (fun _ => false) (fun _ => 0) [⟨0, 61⟩, ⟨5, 3⟩] 0 0) 1 = 0 := by
  have h := C3_per_window_isolation (fun _ => false) (fun _ => 0) [⟨0, 61⟩, ⟨5, 3⟩]
  refine ⟨h.1, ?_, ?_⟩
  · have h2 := h.2.1 0 (by norm_num)
    rw [if_neg (by norm_num : ¬(((([⟨0, 61⟩, ⟨5, 3⟩] : List TRange).getD 0 ⟨0, 0⟩).stop : ℚ) ≤
      (([⟨0, 61⟩, ⟨5, 3⟩] : List TRange).getD 0 ⟨0, 0⟩).start))] at h2
    exact h2
  · have h2 := h.2.1 1 (by norm_num)
    rw [if_pos (by norm_num : ((([⟨0, 61⟩, ⟨5, 3⟩] : List TRange).getD 1 ⟨0, 0⟩).stop : ℚ) ≤
      (([⟨0, 61⟩, ⟨5, 3⟩] : List TRange).getD 1 ⟨0, 0⟩).start)] at h2
    exact h2

/-! ## Highlight scorer lemmas (for C1, C5, C7) -/

theorem windowScores_stop (duration : ℚ) (tss : List ℕ) (cuts : List ℚ) (span : ℕ) :
    ∀ w ∈ windowScores duration tss cuts span, w.stop = (w.start : ℚ) + (span : ℚ) := by
  intro w hw
  simp only [windowScores, List.mem_map] at hw
  obtain ⟨s, _, rfl⟩ := hw
  rfl

theorem sortWindows_mem (l : List ScoredWindow) (w : ScoredWindow) :
    w ∈ sortWindows l ↔ w ∈ l :=
  (List.perm_insertionSort scoreGe l).mem_iff

/-- Invariant of the greedy selection loop: if every pending candidate
spans `[start, start+span)` and the already-chosen moments are pairwise
disjoint with duration-truncated ends, both facts hold of the final
selection. -/
theorem chooseLoop_invariant (duration : ℚ) (n : ℕ) (tss : List ℕ) (cuts : List ℚ)
    (span : ℕ) :
    ∀ (ws : List ScoredWindow) (chosen : List Moment),
      (∀ w ∈ ws, w.stop = (w.start : ℚ) + (span : ℚ)) →
      (∀ c ∈ chosen, c.stop = min duration ((c.start : ℚ) + (span : ℚ))) →
      chosen.Pairwise disjointM →
      (∀ c ∈ chooseLoop duration n tss cuts ws chosen,
          c.stop = min duration ((c.start : ℚ) + (span : ℚ))) ∧
        (chooseLoop duration n tss cuts ws chosen).Pairwise disjointM := by
  intro ws
  induction ws with
  | nil => intro chosen _ h2 h3; exact ⟨h2, h3⟩
  | cons w ws ih =>
    intro chosen hws hch hpw
    by_cases hlen : n ≤ chosen.length
    · simp only [chooseLoop, if_pos hlen]
      exact ⟨hch, hpw⟩
    · by_cases hover : chosen.any (overlapsB w) = true
      · simp only [chooseLoop, if_neg hlen, if_pos hover]
        exact ih chosen (fun w' hw' => hws w' (List.mem_cons_of_mem w hw')) hch hpw
      · simp only [chooseLoop, if_neg hlen, if_neg hover]
        have hwstop := hws w (List.mem_cons_self w ws)
        apply ih
        · exact fun w' hw' => hws w' (List.mem_cons_of_mem w hw')
        · intro c hc
          rcases List.mem_append.mp hc with hc | hc
          · exact hch c hc
          · rcases List.mem_singleton.mp hc with rfl
            show min duration w.stop = _
            rw [hwstop]
        · rw [List.pairwise_append]
          refine ⟨hpw, List.pairwise_singleton _ _, ?_⟩
          intro c hc m hm
          rcases List.mem_singleton.mp hm with rfl
          have hfalse : chosen.any (overlapsB w) = false := Bool.eq_false_iff.mpr hover
          have hov := List.any_eq_false.mp hfalse c hc
          have hov2 : w.stop ≤ (c.start : ℚ) ∨ c.stop ≤ (w.start : ℚ) := by
            have hb : overlapsB w c = false := Bool.eq_false_iff.mpr hov
            simp only [overlapsB, Bool.not_eq_false', Bool.or_eq_true,
              decide_eq_true_eq] at hb
            exact hb
          rcases hov2 with hA | hB
          · right
            show min duration w.stop ≤ (c.start : ℚ)
            exact le_trans (min_le_right _ _) hA
          · left
            exact hB

/-- The selection returned by `getBestMoments` consists of pairwise
disjoint moments whose ends are the duration-truncated window ends. -/
theorem getBestMoments_invariant (filesOk : Bool) (duration : ℚ) (tssRaw : List ℕ)
    (cutsRaw : List ℚ) (maxHighlights spanSeconds : ℕ) :
    (∀ m ∈ getBestMoments filesOk duration tssRaw cutsRaw maxHighlights spanSeconds,
        m.stop = min duration ((m.start : ℚ) + (spanSeconds : ℚ))) ∧
      (getBestMoments filesOk duration tssRaw cutsRaw maxHighlights spanSeconds).Pairwise
        disjointM := by
  cases filesOk with
  | false =>
    constructor
    · intro m hm
      simp [getBestMoments] at hm
    · simp [getBestMoments]
  | true =>
    by_cases hd : duration ≤ 0
    · constructor
      · intro m hm
        simp [getBestMoments, hd] at hm
      · simp [getBestMoments, hd]
    · unfold getBestMoments
      simp only [Bool.not_true, Bool.false_eq_true, if_false, if_neg hd]
      set tss := tssRaw.filter fun (t : ℕ) => decide ((t : ℚ) ≤ duration) with htss
      set cuts := List.insertionSort (fun a b : ℚ => a ≤ b)
        (cutsRaw.filter fun c => decide (c ≤ duration)) with hcuts
      set sorted := sortWindows (windowScores duration tss cuts spanSeconds) with hsorted
      have hws : ∀ w ∈ sorted, w.stop = (w.start : ℚ) + (spanSeconds : ℚ) := by
        intro w hw
        exact windowScores_stop duration tss cuts spanSeconds w
          ((sortWindows_mem _ w).mp hw)
      have hinv := chooseLoop_invariant duration maxHighlights tss cuts spanSeconds sorted []
        hws (by intro c hc; simp at hc) List.Pairwise.nil
      by_cases hempty : (chooseLoop duration maxHighlights tss cuts sorted []).isEmpty = true
      · rw [if_pos hempty]
        constructor
        · intro m hm
          rcases List.mem_singleton.mp hm with rfl
          show min duration (spanSeconds : ℚ) = _
          norm_num
        · exact List.pairwise_singleton _ _
      · rw [if_neg hempty]
        exact hinv

/-- C1: for every run of the highlight scorer, the returned moments are
pairwise non-overlapping (no two share an instant of their half-open
`[start, stop)` spans), and every returned moment spans exactly
`spanSeconds` seconds except that its end is truncated to the total
duration: `stop = min duration (start + spanSeconds)`. -/
theorem C1_scorer_no_overlap_exact_span (filesOk : Bool) (duration : ℚ) (tssRaw : List ℕ)
    (cutsRaw : List ℚ) (maxHighlights spanSeconds : ℕ) :
    (getBestMoments filesOk duration tssRaw cutsRaw maxHighlights spanSeconds).Pairwise
        disjointM ∧
      ∀ m ∈ getBestMoments filesOk duration tssRaw cutsRaw maxHighlights spanSeconds,
        m.stop = min duration ((m.start : ℚ) + (spanSeconds : ℚ)) :=
  ⟨(getBestMoments_invariant filesOk duration tssRaw cutsRaw maxHighlights spanSeconds).2,
    (getBestMoments_invariant filesOk duration tssRaw cutsRaw maxHighlights spanSeconds).1⟩

/-- C7 (amended): with its input files present and a known positive
duration the scorer never returns an empty set — when nothing is
selected by the greedy loop it appends the default window
`[0, min(duration, span)]` itself (maindl.js lines 483–488); the
caller's separate fallback, which fires only when the scorer returned
empty (files missing or duration unknown), plans `[0, segmentLength]`,
not `[0, min(D, S)]`. -/
theorem C7_scorer_self_fallback (duration : ℚ) (tssRaw : List ℕ) (cutsRaw : List ℚ)
    (maxHighlights spanSeconds : ℕ) (hd : 0 < duration) :
    getBestMoments true duration tssRaw cutsRaw maxHighlights spanSeconds ≠ [] ∧
    ∀ (n segLen : ℕ) (tss : List ℕ) (cuts : List ℚ) (dp : Option ℚ),
      buildPlan (Mode.highlight n tss cuts false) dp segLen =
        some [⟨0, (segLen : ℚ)⟩] := by
  constructor
  · unfold getBestMoments
    simp only [Bool.not_true, Bool.false_eq_true, if_false, if_neg (not_le.mpr hd)]
    by_cases hempty : (chooseLoop duration maxHighlights
        (tssRaw.filter fun (t : ℕ) => decide ((t : ℚ) ≤ duration))
        (List.insertionSort (fun a b : ℚ => a ≤ b)
          (cutsRaw.filter fun c => decide (c ≤ duration)))
        (sortWindows (windowScores duration
          (tssRaw.filter fun (t : ℕ) => decide ((t : ℚ) ≤ duration))
          (List.insertionSort (fun a b : ℚ => a ≤ b)
            (cutsRaw.filter fun c => decide (c ≤ duration))) spanSeconds)) []).isEmpty = true
    · rw [if_pos hempty]
      exact List.cons_ne_nil _ _
    · rw [if_neg hempty]
      exact fun h => hempty (by rw [h]; rfl)
  · intro n segLen tss cuts dp
    rfl

/-- Witness for C7 (amended) at duration `10`. -/
theorem C7_scorer_self_fallback_witness :
    (0 : ℚ) < 10 ∧ getBestMoments true 10 [] [] 5 30 ≠ [] :=
  ⟨by norm_num, (C7_scorer_self_fallback 10 [] [] 5 30 (by norm_num)).1⟩

/-- Counterexample to C7 as stated: at the claim's own example `D < S`
(duration `10`, span `30`) the scorer returns a nonempty selection and
produces the default window `[0, min(D, S)] = [0, 10]` itself, and the
highlight plan is exactly that scorer output (`[0, 10]`, not the
caller-level `[0, 30]`) — the fallback lives in the scorer, not in its
caller. -/
theorem C7_scorer_self_fallback_cex :
    (10 : ℚ) < 30 ∧
    getBestMoments true 10 [] [] 5 30 =
      [{ start := 0, stop := 10, score := 0, reason := "relative activity" }] ∧
    getBestMoments true 10 [] [] 5 30 ≠ [] ∧
    buildPlan (Mode.highlight 5 [] [] true) (some 10) 30 = some [⟨0, 10⟩] := by
  refine ⟨by norm_num, ?_, ?_, ?_⟩ <;> with_unfolding_all decide

/-! ## Auto-split loop lemmas (for C2, C5, C6) -/

/-- Closed form of the auto-split loop: `n` full windows of length
`T` from `cur`, then the remainder window `[cur + n·T, stop)` exactly
when it is nonempty. -/
theorem autoSplitGo_closed (T : ℕ) (hT : 0 < T) (stop : ℚ) :
    ∀ (n : ℕ) (cur : ℚ), (⌊(stop - cur) / (T : ℚ)⌋).toNat = n →
      autoSplitGo T stop cur =
        (List.range n).map
          (fun (k : ℕ) => TRange.mk (cur + (k : ℚ) * (T : ℚ))
            (cur + ((k : ℚ) + 1) * (T : ℚ))) ++
        (if cur + (n : ℚ) * (T : ℚ) < stop then [TRange.mk (cur + (n : ℚ) * (T : ℚ)) stop]
         else []) := by
  have hTQ : (0 : ℚ) < T := by exact_mod_cast hT
  intro n
  induction n with
  | zero =>
    intro cur hq
    have hfl : ⌊(stop - cur) / (T : ℚ)⌋ ≤ 0 := by omega
    have hlt : stop - cur < T := by
      have h1 : (stop - cur) / (T : ℚ) < 1 := by
        have h2 := Int.lt_floor_add_one ((stop - cur) / (T : ℚ))
        have h3 : ((⌊(stop - cur) / (T : ℚ)⌋ : ℚ) : ℚ) ≤ 0 := by exact_mod_cast hfl
        linarith
      calc stop - cur = ((stop - cur) / (T : ℚ)) * T := by field_simp
      _ < 1 * T := mul_lt_mul_of_pos_right h1 hTQ
      _ = T := one_mul _
    have hguard : ¬(0 < T ∧ cur + (T : ℚ) ≤ stop) := by
      rintro ⟨_, hg⟩
      linarith
    rw [autoSplitGo, dif_neg hguard]
    have hc0 : cur + ((0 : ℕ) : ℚ) * (T : ℚ) = cur := by push_cast; ring
    rw [List.range_zero, List.map_nil, List.nil_append, hc0]
  | succ n ih =>
    intro cur hq
    have hfl_pos : 1 ≤ ⌊(stop - cur) / (T : ℚ)⌋ := by omega
    have hge1 : (1 : ℚ) ≤ (stop - cur) / (T : ℚ) := by
      calc (1 : ℚ) = ((1 : ℤ) : ℚ) := by norm_num
      _ ≤ ((⌊(stop - cur) / (T : ℚ)⌋ : ℤ) : ℚ) := by exact_mod_cast hfl_pos
      _ ≤ _ := Int.floor_le _
    have hguard : 0 < T ∧ cur + (T : ℚ) ≤ stop := by
      refine ⟨hT, ?_⟩
      have hTle : (T : ℚ) ≤ stop - cur := by
        calc (T : ℚ) = 1 * T := (one_mul _).symm
        _ ≤ ((stop - cur) / (T : ℚ)) * T :=
          mul_le_mul_of_nonneg_right hge1 (le_of_lt hTQ)
        _ = stop - cur := by field_simp
      linarith
    have hnext : (⌊(stop - (cur + (T : ℚ))) / (T : ℚ)⌋).toNat = n := by
      have hrw : (stop - (cur + (T : ℚ))) / (T : ℚ) = (stop - cur) / (T : ℚ) - 1 := by
        field_simp
        ring
      rw [hrw]
      have : (⌊(stop - cur) / (T : ℚ) - 1⌋) = ⌊(stop - cur) / (T : ℚ)⌋ - 1 := by
        exact_mod_cast Int.floor_sub_int ((stop - cur) / (T : ℚ)) 1
      rw [this]
      omega
    have ih' := ih (cur + (T : ℚ)) hnext
    rw [autoSplitGo, dif_pos hguard, ih', List.range_succ_eq_map]
    simp only [List.map_cons, List.map_map, List.cons_append]
    congr 1
    · simp only [TRange.mk.injEq]
      constructor <;> (push_cast; ring)
    congr 1
    · apply List.map_congr_left
      intro k _
      simp only [Function.comp_apply, TRange.mk.injEq]
      constructor <;> (push_cast; ring)
    · have harith : cur + (T : ℚ) + (n : ℚ) * (T : ℚ) = cur + ((n + 1 : ℕ) : ℚ) * (T : ℚ) := by
        push_cast
        ring
      rw [harith]

/-- The starts produced by the auto-split loop are non-decreasing. -/
theorem autoSplitGo_chain (T : ℕ) (stop cur : ℚ) :
    List.Chain' (fun a b : TRange => a.start ≤ b.start) (autoSplitGo T stop cur) := by
  by_cases hT : 0 < T
  · rw [autoSplitGo_closed T hT stop _ cur rfl]
    apply List.Pairwise.chain'
    rw [List.pairwise_append]
    have hT0 : (0 : ℚ) ≤ T := by positivity
    refine ⟨?_, ?_, ?_⟩
    · rw [List.pairwise_map]
      apply List.Pairwise.imp ?_ (List.pairwise_lt_range _)
      intro i j hij
      show cur + (i : ℚ) * T ≤ cur + (j : ℚ) * T
      have hij' : (i : ℚ) ≤ (j : ℚ) := by exact_mod_cast le_of_lt hij
      nlinarith
    · split
      · exact List.pairwise_singleton _ _
      · exact List.Pairwise.nil
    · intro a ha b hb
      rw [List.mem_map] at ha
      obtain ⟨k, hk, rfl⟩ := ha
      rw [List.mem_range] at hk
      have hb' : b = TRange.mk (cur + (((⌊(stop - cur) / (T : ℚ)⌋).toNat : ℕ) : ℚ) * T) stop := by
        by_cases hC : cur + (((⌊(stop - cur) / (T : ℚ)⌋).toNat : ℕ) : ℚ) * T < stop
        · rw [if_pos hC] at hb
          exact List.mem_singleton.mp hb
        · rw [if_neg hC] at hb
          exact absurd hb (List.not_mem_nil b)
      rw [hb']
      show cur + (k : ℚ) * T ≤ cur + _ * T
      have hk' : (k : ℚ) ≤ (((⌊(stop - cur) / (T : ℚ)⌋).toNat : ℕ) : ℚ) := by
        exact_mod_cast le_of_lt hk
      nlinarith
  · rw [autoSplitGo, dif_neg (by rintro ⟨h0, _⟩; omega)]
    split <;> simp

/-- The highlight-mode plan is pairwise non-overlapping: it is either
the scorer's (pairwise-disjoint) output or the single fallback window. -/
theorem buildPlan_highlight_pairwise (n : ℕ) (tssRaw : List ℕ) (cutsRaw : List ℚ)
    (filesOk : Bool) (dp : Option ℚ) (segLen : ℕ) (plan : List TRange)
    (h : buildPlan (Mode.highlight n tssRaw cutsRaw filesOk) dp segLen = some plan) :
    plan.Pairwise disjointR := by
  have hpair := (getBestMoments_invariant filesOk (dp.getD 0) tssRaw cutsRaw n segLen).2
  simp only [buildPlan, Option.some.injEq] at h
  subst h
  by_cases hemp :
      ((getBestMoments filesOk (dp.getD 0) tssRaw cutsRaw n segLen).map
        (fun h => TRange.mk (h.start : ℚ) h.stop)).isEmpty = true
  · rw [if_pos hemp]
    exact List.pairwise_singleton _ _
  · rw [if_neg hemp]
    exact List.Pairwise.map _ (fun a b hab => hab) hpair

/-- C2: for an explicit input range with `start < stop` and auto-split
target `T > 0`, the plan builder subdivides the range into
`⌊(stop-start)/T⌋` consecutive windows of length exactly `T` starting at
the range start, followed by one final remainder window
`[start + q·T, stop)` which is shorter than `T` and present if and only
if the range length is not a multiple of `T`. -/
theorem C2_auto_split_closed_form (T : ℕ) (r : TRange) (hT : 0 < T) (h : r.start < r.stop) :
    splitRange T r =
      (List.range (fullSegments T r)).map
        (fun (k : ℕ) => TRange.mk (r.start + (k : ℚ) * (T : ℚ))
          (r.start + ((k : ℚ) + 1) * (T : ℚ))) ++
      (if r.start + (fullSegments T r : ℚ) * (T : ℚ) < r.stop then
        [TRange.mk (r.start + (fullSegments T r : ℚ) * (T : ℚ)) r.stop]
      else []) ∧
    (r.start + (fullSegments T r : ℚ) * (T : ℚ) < r.stop ↔
      ¬ ∃ k : ℕ, r.stop - r.start = (k : ℚ) * (T : ℚ)) ∧
    r.stop - (r.start + (fullSegments T r : ℚ) * (T : ℚ)) < (T : ℚ) := by
  have hTQ : (0 : ℚ) < T := by exact_mod_cast hT
  have hq : (⌊(r.stop - r.start) / (T : ℚ)⌋).toNat = fullSegments T r := by
    rw [fullSegments, ratFloor_eq]
  have hfl0 : 0 ≤ ⌊(r.stop - r.start) / (T : ℚ)⌋ := by
    apply Int.floor_nonneg.mpr
    apply div_nonneg (by linarith) (le_of_lt hTQ)
  have hcast : ((fullSegments T r : ℕ) : ℚ) = ((⌊(r.stop - r.start) / (T : ℚ)⌋ : ℤ) : ℚ) := by
    rw [← hq]
    exact_mod_cast congrArg (fun z : ℤ => (z : ℚ)) (Int.toNat_of_nonneg hfl0)
  have hle : (fullSegments T r : ℚ) * (T : ℚ) ≤ r.stop - r.start := by
    calc (fullSegments T r : ℚ) * (T : ℚ)
        = ((⌊(r.stop - r.start) / (T : ℚ)⌋ : ℤ) : ℚ) * T := by rw [hcast]
    _ ≤ ((r.stop - r.start) / (T : ℚ)) * T :=
        mul_le_mul_of_nonneg_right (Int.floor_le _) (le_of_lt hTQ)
    _ = r.stop - r.start := by field_simp
  have hlt2 : r.stop - r.start < ((fullSegments T r : ℚ) + 1) * (T : ℚ) := by
    have hfl := Int.lt_floor_add_one ((r.stop - r.start) / (T : ℚ))
    calc r.stop - r.start = ((r.stop - r.start) / (T : ℚ)) * T := by field_simp
    _ < (((⌊(r.stop - r.start) / (T : ℚ)⌋ : ℤ) : ℚ) + 1) * T := by
        apply mul_lt_mul_of_pos_right ?_ hTQ
        push_cast
        push_cast at hfl
        linarith
    _ = ((fullSegments T r : ℚ) + 1) * (T : ℚ) := by rw [hcast]
  refine ⟨?_, ?_, by nlinarith⟩
  · rw [splitRange, if_neg (not_le.mpr h)]
    exact autoSplitGo_closed T hT r.stop (fullSegments T r) r.start hq
  · constructor
    · intro hlt hex
      obtain ⟨k, hk⟩ := hex
      have hdiv : (r.stop - r.start) / (T : ℚ) = (k : ℚ) := by
        rw [hk]
        field_simp
      have hflk : ⌊(r.stop - r.start) / (T : ℚ)⌋ = (k : ℤ) := by
        rw [hdiv]
        exact_mod_cast Int.floor_natCast k
      have hqk : ((fullSegments T r : ℕ) : ℚ) = (k : ℚ) := by
        rw [hcast, hflk]
        norm_num
      rw [hqk, ← hk] at hlt
      linarith
    · intro hne
      rcases lt_or_eq_of_le hle with hlt | heq
      · linarith
      · exact absurd ⟨fullSegments T r, heq.symm⟩ hne

/-- Witness for C2: the claim's own instance — range `[0, 130)` with
target `60` yields exactly `[0,60), [60,120), [120,130)`. -/
theorem C2_auto_split_closed_form_witness :
    0 < 60 ∧ ((0 : ℚ) < 130) ∧
    splitRange 60 ⟨0, 130⟩ = [⟨0, 60⟩, ⟨60, 120⟩, ⟨120, 130⟩] := by
  refine ⟨by norm_num, by norm_num, ?_⟩
  have h := (C2_auto_split_closed_form 60 ⟨0, 130⟩ (by norm_num) (by norm_num)).1
  rw [h]
  with_unfolding_all decide

/-- C5 (amended): within the windows split out of a single input range
(the same loop also serves whole-video auto-split mode) the start times
are non-decreasing, and a highlight-selected plan never contains two
overlapping windows; the flat highlight plan, however, follows the
scorer's descending-score output order, so it need not be monotone in
start time across windows (see the counterexample). -/
theorem C5_group_monotone_highlight_disjoint :
    (∀ (T : ℕ) (stop cur : ℚ),
      List.Chain' (fun a b : TRange => a.start ≤ b.start) (autoSplitGo T stop cur)) ∧
    (∀ (n : ℕ) (tssRaw : List ℕ) (cutsRaw : List ℚ) (filesOk : Bool) (dp : Option ℚ)
        (segLen : ℕ) (plan : List TRange),
      buildPlan (Mode.highlight n tssRaw cutsRaw filesOk) dp segLen = some plan →
        plan.Pairwise disjointR) :=
  ⟨fun T stop cur => autoSplitGo_chain T stop cur,
    fun n tssRaw cutsRaw filesOk dp segLen plan h =>
      buildPlan_highlight_pairwise n tssRaw cutsRaw filesOk dp segLen plan h⟩

/-- Witness for C5 (amended): the split of `[0, 130)` by `60` is
start-monotone, and the concrete highlight plan `[[0, 61)]` is pairwise
disjoint. -/
theorem C5_group_monotone_highlight_disjoint_witness :
    List.Chain' (fun a b : TRange => a.start ≤ b.start) (autoSplitGo 60 130 0) ∧
    ([⟨0, (61 : ℚ)⟩] : List TRange).Pairwise disjointR :=
  ⟨C5_group_monotone_highlight_disjoint.1 60 130 0,
    C5_group_monotone_highlight_disjoint.2 5 [] [] true none 61 [⟨0, (61 : ℚ)⟩]
      (by with_unfolding_all decide)⟩

/-- Counterexample to C5 as stated: a highlight run (duration `10`,
span `2`, two highlights, scene cuts at `0`, `10`, `10`) plans the
windows in score order `[8,10), [0,2)` — the flat window list of the
plan is NOT monotonically non-decreasing in start time. -/
theorem C5_group_monotone_highlight_disjoint_cex :
    buildPlan (Mode.highlight 2 [] [10, 10, 0] true) (some 10) 2 =
      some [⟨8, 10⟩, ⟨0, 2⟩] ∧
    ¬ List.Chain' (fun a b : TRange => a.start ≤ b.start)
      [(⟨8, 10⟩ : TRange), ⟨0, 2⟩] := by
  constructor
  · with_unfolding_all decide
  · intro hch
    have h1 : ((⟨8, 10⟩ : TRange)).start ≤ ((⟨0, 2⟩ : TRange)).start :=
      (List.chain'_cons.mp hch).1
    have h2 : (8 : ℚ) ≤ 0 := h1
    norm_num at h2

/-- C6 (amended): only whole-video mode aborts the run when the total
duration cannot be determined (before any planning); in highlight mode
an unknown duration makes the scorer return the empty list and the
caller then plans the fallback window `[0, segmentLength]` and proceeds
to render it; in explicit-ranges mode the duration is never consulted
and planning always succeeds. -/
theorem C6_duration_abort_scope :
    (∀ (autoSplit : Bool) (segLen : ℕ),
      buildPlan (Mode.wholeVideo autoSplit) none segLen = none) ∧
    (∀ (n : ℕ) (tssRaw : List ℕ) (cutsRaw : List ℚ) (filesOk : Bool) (segLen : ℕ),
      buildPlan (Mode.highlight n tssRaw cutsRaw filesOk) none segLen =
        some [⟨0, (segLen : ℚ)⟩]) ∧
    (∀ (ranges : List TRange) (autoSplit : Bool) (dp : Option ℚ) (segLen : ℕ),
      (buildPlan (Mode.explicitRanges ranges autoSplit) dp segLen).isSome = true) := by
  refine ⟨fun _ _ => rfl, ?_, fun _ _ _ _ => rfl⟩
  intro n tssRaw cutsRaw filesOk segLen
  cases filesOk
  · rfl
  · rfl

/-- Counterexample to C6 as stated: in highlight mode with an
undeterminable duration the run is not aborted — a nonempty plan
`[[0, 61)]` is produced and rendering is attempted (one transcoder
invocation). -/
theorem C6_duration_abort_scope_cex :
    buildPlan (Mode.highlight 5 [] [] true) none 61 = some [⟨0, 61⟩] ∧
    (buildPlan (Mode.highlight 5 [] [] true) none 61).isSome = true ∧
    (runPipeline (Mode.highlight 5 [] [] true) none 61 (fun _ => true) (fun _ => 0)).map
      (fun p => (p.1, p.2.length)) = some ([⟨0, 61⟩], 1) := by
  refine ⟨?_, ?_, ?_⟩ <;> with_unfolding_all decide

/-! ## Sliding evaluation, prefix sums and ordering (for C8) -/

theorem filter_comm_map {α β : Type} (f : α → β) (p : β → Bool) (l : List α) :
    (l.map f).filter p = (l.filter (fun a => p (f a))).map f := by
  induction l with
  | nil => rfl
  | cons a l ih =>
    simp only [List.map_cons, List.filter_cons]
    by_cases h : p (f a) = true
    · rw [if_pos h, if_pos h, List.map_cons, ih]
    · rw [if_neg h, if_neg h, ih]

theorem range_filter_eq (n s : ℕ) (h : s < n) :
    (List.range n).filter (fun x => x == s) = [s] := by
  induction n with
  | zero => omega
  | succ n ih =>
    rw [List.range_succ, List.filter_append]
    rcases Nat.lt_or_ge s n with hs | hs
    · rw [ih hs]
      have hne : (n == s) = false := beq_eq_false_iff_ne.mpr (by omega)
      simp [List.filter_cons, hne]
    · have hsn : s = n := by omega
      subst hsn
      have h1 : (List.range s).filter (fun x => x == s) = [] := by
        rw [List.filter_eq_nil_iff]
        intro a ha
        have : a < s := List.mem_range.mp ha
        simp only [beq_iff_eq, decide_eq_true_eq]
        omega
      rw [h1, List.nil_append]
      simp [List.filter_cons]

/-- For every integer start `s` with `s ≤ duration - span` there is
exactly one candidate, spanning `[s, s+span)`, whose score is the mean
of the combined score over the `span` seconds `[s, s+span)`. -/
theorem windowScores_filter_start (duration : ℚ) (tss : List ℕ) (cuts : List ℚ)
    (span : ℕ) (hs : 0 < span) (s : ℕ) (hle : (s : ℚ) ≤ duration - (span : ℚ)) :
    (windowScores duration tss cuts span).filter (fun w => w.start == s) =
      [{ start := s, stop := (s : ℚ) + (span : ℚ),
         score := windowSum (combinedScore tss cuts) s (s + span - 1) / (span : ℚ) }] := by
  have hsm : s < (Rat.floor (duration - (span : ℚ))).toNat + 1 := by
    rw [ratFloor_eq]
    have h1 : (s : ℤ) ≤ ⌊duration - (span : ℚ)⌋ := Int.le_floor.mpr (by exact_mod_cast hle)
    omega
  have hendIdx : min (lenL duration - 1) (s + span - 1) = s + span - 1 := by
    apply min_eq_right
    have h2 : ((s + span : ℕ) : ℚ) ≤ duration := by push_cast; linarith
    have h3 : ((s + span : ℕ) : ℤ) ≤ jsCeil duration := by
      rw [jsCeil_eq]
      exact_mod_cast le_trans h2 (Int.le_ceil duration)
    rw [lenL]
    omega
  rw [windowScores, filter_comm_map]
  have hpred : (fun a => (mkWindow duration tss cuts span a).start == s) =
      (fun a => a == s) := rfl
  rw [hpred, range_filter_eq _ _ hsm]
  simp only [List.map_cons, List.map_nil]
  rw [mkWindow]
  simp only [hendIdx]
  have hdiv : s + span - 1 - s + 1 = span := by omega
  rw [hdiv]

theorem prefixSums_foldl_spec (sc : ℕ → ℚ) :
    ∀ len : ℕ,
      (List.range len).foldl (fun p i => (p.1 ++ [p.2 + sc i], p.2 + sc i)) ([0], 0) =
        ((List.range (len + 1)).map (fun m => ∑ i ∈ Finset.range m, sc i),
          ∑ i ∈ Finset.range len, sc i) := by
  intro len
  induction len with
  | zero =>
    have h1 : List.range 1 = [0] := rfl
    simp [h1]
  | succ n ih =>
    rw [List.range_succ n, List.foldl_append, ih]
    simp only [List.foldl_cons, List.foldl_nil]
    apply Prod.ext
    · show (List.range (n + 1)).map (fun m => ∑ i ∈ Finset.range m, sc i) ++
        [(∑ i ∈ Finset.range n, sc i) + sc n] =
        (List.range (n + 1 + 1)).map (fun m => ∑ i ∈ Finset.range m, sc i)
      rw [← Finset.sum_range_succ]
      conv_rhs => rw [List.range_succ, List.map_append, List.map_cons, List.map_nil]
    · show (∑ i ∈ Finset.range n, sc i) + sc n = ∑ i ∈ Finset.range (n + 1), sc i
      exact (Finset.sum_range_succ sc n).symm

theorem prefixSums_eq (sc : ℕ → ℚ) (len : ℕ) :
    prefixSums sc len = (List.range (len + 1)).map (fun m => ∑ i ∈ Finset.range m, sc i) := by
  rw [prefixSums, prefixSums_foldl_spec]

theorem prefixSums_getD (sc : ℕ → ℚ) (len i : ℕ) (h : i ≤ len) :
    (prefixSums sc len).getD i 0 = ∑ j ∈ Finset.range i, sc j := by
  rw [prefixSums_eq, List.getD_eq_getElem?_getD, List.getElem?_map,
    List.getElem?_range (by omega : i < len + 1)]
  rfl

/-- The inclusive range sum used for a window's score equals the
difference of two cells of the cumulative `prefix` array
(`sumRange(a,b) = prefix[b+1] - prefix[a]`, maindl.js lines 455–459). -/
theorem windowSum_eq_prefixSums (sc : ℕ → ℚ) (len a b : ℕ) (hab : a ≤ b) (hb : b < len) :
    windowSum sc a b =
      (prefixSums sc len).getD (b + 1) 0 - (prefixSums sc len).getD a 0 := by
  rw [prefixSums_getD sc len (b + 1) (by omega), prefixSums_getD sc len a (by omega)]
  rw [windowSum, ← Nat.Ico_succ_right, Finset.sum_Ico_eq_sub _ (by omega)]

/-- C8: the combined per-second score is `3·timestampSignal +
1·cutDensitySignal`; one candidate window is evaluated for every integer
start `s` in `[0, duration - span]`, spanning `[s, s+span)` with score
the mean of the combined score over those `span` seconds; the range sums
come from the cumulative prefix array; and the candidate list is
(stably) ordered by descending mean score before selection. -/
theorem C8_scoring_prefix_ordering (duration : ℚ) (tss : List ℕ) (cuts : List ℚ)
    (span : ℕ) (hs : 0 < span) :
    (∀ i, combinedScore tss cuts i =
      3 * (tsPresence tss i : ℚ) + 1 * (cutDensity cuts i : ℚ)) ∧
    (∀ s : ℕ, (s : ℚ) ≤ duration - (span : ℚ) →
      (windowScores duration tss cuts span).filter (fun w => w.start == s) =
        [{ start := s, stop := (s : ℚ) + (span : ℚ),
           score := windowSum (combinedScore tss cuts) s (s + span - 1) / (span : ℚ) }]) ∧
    (∀ a b : ℕ, a ≤ b → b < lenL duration →
      windowSum (combinedScore tss cuts) a b =
        (prefixSums (combinedScore tss cuts) (lenL duration)).getD (b + 1) 0 -
          (prefixSums (combinedScore tss cuts) (lenL duration)).getD a 0) ∧
    (sortWindows (windowScores duration tss cuts span)).Perm
      (windowScores duration tss cuts span) ∧
    List.Sorted scoreGe (sortWindows (windowScores duration tss cuts span)) := by
  refine ⟨?_, ?_, ?_, ?_, ?_⟩
  · intro i
    rw [combinedScore]
    ring
  · intro s hle
    exact windowScores_filter_start duration tss cuts span hs s hle
  · intro a b hab hb
    exact windowSum_eq_prefixSums (combinedScore tss cuts) (lenL duration) a b hab hb
  · exact List.perm_insertionSort scoreGe _
  · exact List.sorted_insertionSort scoreGe _

/-- Witness for C8 at duration `10`, span `2`, empty signals. -/
theorem C8_scoring_prefix_ordering_witness :
    0 < 2 ∧
    (windowScores 10 [] [] 2).filter (fun w => w.start == (0 : ℕ)) =
      [{ start := (0 : ℕ), stop := ((0 : ℕ) : ℚ) + ((2 : ℕ) : ℚ),
         score := windowSum (combinedScore [] []) 0 (0 + 2 - 1) / ((2 : ℕ) : ℚ) }] :=
  ⟨by norm_num,
    (C8_scoring_prefix_ordering 10 [] [] 2 (by norm_num)).2.1 0 (by norm_num)⟩

/-- Witness for C4 at the all-zeros random stream. -/
theorem C4_effect_ranges_witness :
    (∀ n : ℕ, 0 ≤ (0 : ℚ) ∧ (0 : ℚ) < 1) ∧
      EffectInRanges (generateUniqueEffects (fun _ => 0) 0).1 :=
  ⟨fun _ => ⟨le_refl 0, by norm_num⟩,
    C4_effect_ranges (fun _ => 0) 0 (fun _ => ⟨le_refl 0, by norm_num⟩)⟩

end Maindl
